import Mathlib

/-!
Shallow embedding of the lionSynth module-graph execution core
(src/src/module/parameter.rs, src/src/module/aux_input.rs,
src/src/module/module.rs, src/src/module/real_time.rs,
src/src/layout_yaml.rs, src/src/bundled_modules/osc/oscillator.rs).

Modelling conventions:
* `f32` values are modelled as exact rationals (`ℚ`); a floating-point
  literal of the source is read as the rational it denotes.  Comparisons,
  the affine `translate` map and the builder validations are exact at this
  level of abstraction.
* A Rust function that can `panic!` (an `unwrap`/`expect` on `None`/`Err`)
  is modelled as returning `Option`, with `none` for the panic.
* A fallible Rust function returning `Result` is modelled with `Except`.
* Mutation of `&mut self` is modelled by returning the updated value.
-/

namespace LionSynth

/-- `f32` sample values, modelled as exact rationals. -/
abbrev F : Type := ℚ

/-- Truncation toward zero, as Rust float-to-integer truncation behaves. -/
def fTrunc (x : F) : Int := if x < 0 then ⌈x⌉ else ⌊x⌋

/-- Rust `%` on `f32`: remainder with the sign of the dividend
(`a - b * trunc (a / b)`), used by the wrapping sample clock. -/
def fRem (a b : F) : F := a - b * (fTrunc (a / b) : F)

/-! ## Parameter (src/src/module/parameter.rs) -/

/-- `Parameter` struct from src/src/module/parameter.rs. -/
structure Parameter where
  max : F
  min : F
  step : F
  default : F
  current : F
  tag : String
  deriving Repr, DecidableEq

/-- `Parameter::get_tag`. -/
def Parameter.get_tag (p : Parameter) : String := p.tag

/-- `Parameter::get_value`. -/
def Parameter.get_value (p : Parameter) : F := p.current

/-- `Parameter::set`: applies the value iff `value <= max && value >= min`,
otherwise keeps the prior value (only a warning is logged). -/
def Parameter.set (p : Parameter) (value : F) : Parameter :=
  if value ≤ p.max ∧ value ≥ p.min then { p with current := value } else p

/-- `Parameter::inc`: increases `current` by `step`, saturating at `max`. -/
def Parameter.inc (p : Parameter) : Parameter :=
  if p.current + p.step > p.max then { p with current := p.max }
  else { p with current := p.current + p.step }

/-- `Parameter::dec`: decreases `current` by `step`, saturating at `min`. -/
def Parameter.dec (p : Parameter) : Parameter :=
  if p.current - p.step < p.min then { p with current := p.min }
  else { p with current := p.current - p.step }

/-- `ParameterBuilder` struct from src/src/module/parameter.rs. -/
structure ParameterBuilder where
  max : Option F
  min : Option F
  step : Option F
  default : Option F
  tag : String
  deriving Repr, DecidableEq

/-- `ParameterBuilder::new`. -/
def ParameterBuilder.new (tag : String) : ParameterBuilder :=
  { max := none, min := none, step := none, default := none, tag := tag }

/-- `ParameterBuilder::with_max`. -/
def ParameterBuilder.with_max (b : ParameterBuilder) (mx : F) : ParameterBuilder :=
  { b with max := some mx }

/-- `ParameterBuilder::with_min`. -/
def ParameterBuilder.with_min (b : ParameterBuilder) (mn : F) : ParameterBuilder :=
  { b with min := some mn }

/-- `ParameterBuilder::with_step`. -/
def ParameterBuilder.with_step (b : ParameterBuilder) (st : F) : ParameterBuilder :=
  { b with step := some st }

/-- `ParameterBuilder::with_default`. -/
def ParameterBuilder.with_default (b : ParameterBuilder) (df : F) : ParameterBuilder :=
  { b with default := some df }

/-- `ParameterBuilder::build`: fills unset fields with the defaults
`max = 1.0`, `min = 0.0`, `step = 0.1`, `default = 0.0`, then checks
`max < min`, `default > max || default < min` and `step > max - min`
(note: the source has no check that `step` is positive). -/
def ParameterBuilder.build (b : ParameterBuilder) : Except String Parameter :=
  let mx := b.max.getD 1.0
  let mn := b.min.getD 0.0
  let st := b.step.getD 0.1
  let df := b.default.getD 0.0
  if mx < mn then .error "Non valid max/min range."
  else if df > mx ∨ df < mn then .error "Default value is out of range."
  else if st > mx - mn then
    .error "Step too small. Can not be smaller than the difference between"
  else .ok { max := mx, min := mn, step := st, default := df, current := df, tag := b.tag }

/-! ## Theorems for C1, C6, C10 -/

/-- C1: for every `Parameter` `p` and value `v`, `p.set v` sets the stored
value to `v` when `min ≤ v ≤ max`, and leaves it unchanged (no clamping,
no error) when `v < min` or `v > max`. -/
theorem set_in_range_applies_out_of_range_noop (p : Parameter) (v : F) :
    (p.min ≤ v → v ≤ p.max → (p.set v).get_value = v) ∧
    (v < p.min ∨ p.max < v → (p.set v).get_value = p.get_value) := by
  constructor
  · intro h1 h2
    simp [Parameter.set, Parameter.get_value, h1, h2, ge_iff_le]
  · intro h
    rcases h with h | h
    · have : ¬ (v ≤ p.max ∧ v ≥ p.min) := by
        rintro ⟨_, hge⟩; exact absurd h (not_lt.mpr hge)
      simp [Parameter.set, this, Parameter.get_value]
    · have : ¬ (v ≤ p.max ∧ v ≥ p.min) := by
        rintro ⟨hle, _⟩; exact absurd h (not_lt.mpr hle)
      simp [Parameter.set, this, Parameter.get_value]

/-- Witness for C1: concrete instantiation, both branches discharged. -/
theorem set_in_range_applies_out_of_range_noop_witness :
    (({ max := 2, min := 1, step := 1, default := 1, current := 1, tag := "t" } :
        Parameter).set 2).get_value = 2 ∧
    (({ max := 2, min := 1, step := 1, default := 1, current := 1, tag := "t" } :
        Parameter).set 3).get_value = 1 :=
  ⟨(set_in_range_applies_out_of_range_noop
      { max := 2, min := 1, step := 1, default := 1, current := 1, tag := "t" } 2).1
      (by norm_num) (by norm_num),
   (set_in_range_applies_out_of_range_noop
      { max := 2, min := 1, step := 1, default := 1, current := 1, tag := "t" } 3).2
      (Or.inr (by norm_num))⟩

/-- C6 counterexample: the claim says `build` errors whenever `step ≤ 0`,
but with `step = 0` (and the default `max = 1`, `min = 0`, `default = 0`)
`build` succeeds, because the source never checks the sign of `step`. -/
theorem c6_counterexample_step_zero_accepted :
    (0 : F) ≤ 0 ∧
    ((ParameterBuilder.new "test").with_step 0).build =
      .ok { max := 1, min := 0, step := 0, default := 0, current := 0, tag := "test" } := by
  constructor
  · exact le_refl 0
  · norm_num [ParameterBuilder.build, ParameterBuilder.new, ParameterBuilder.with_step]

/-- C6 as amended: `build` returns an error exactly when `max < min`, or
`default > max`, or `default < min`, or `step > max - min` (there is no
`step ≤ 0` check); and whenever those conditions all fail — in particular
for all arguments with `max ≥ min`, `min ≤ default ≤ max` and
`0 < step ≤ max - min` — it succeeds and the resulting parameter has
`get_value` equal to the default. -/
theorem build_err_iff_and_ok_value (b : ParameterBuilder) :
    ((∃ e, b.build = .error e) ↔
      (b.max.getD 1.0 < b.min.getD 0.0 ∨
       b.default.getD 0.0 > b.max.getD 1.0 ∨
       b.default.getD 0.0 < b.min.getD 0.0 ∨
       b.step.getD 0.1 > b.max.getD 1.0 - b.min.getD 0.0)) ∧
    (∀ p, b.build = .ok p →
      p.get_value = b.default.getD 0.0 ∧ p.max = b.max.getD 1.0 ∧
      p.min = b.min.getD 0.0 ∧ p.step = b.step.getD 0.1 ∧ p.tag = b.tag) := by
  unfold ParameterBuilder.build
  by_cases h1 : b.max.getD 1.0 < b.min.getD 0.0
  · rw [if_pos h1]
    refine ⟨?_, ?_⟩
    · exact ⟨fun _ => Or.inl h1, fun _ => ⟨"Non valid max/min range.", rfl⟩⟩
    · intro p hp; cases hp
  · rw [if_neg h1]
    by_cases h2 : b.default.getD 0.0 > b.max.getD 1.0 ∨ b.default.getD 0.0 < b.min.getD 0.0
    · rw [if_pos h2]
      refine ⟨?_, ?_⟩
      · refine ⟨fun _ => Or.inr ?_, fun _ => ⟨"Default value is out of range.", rfl⟩⟩
        rcases h2 with h2 | h2
        · exact Or.inl h2
        · exact Or.inr (Or.inl h2)
      · intro p hp; cases hp
    · rw [if_neg h2]
      by_cases h3 : b.step.getD 0.1 > b.max.getD 1.0 - b.min.getD 0.0
      · rw [if_pos h3]
        refine ⟨?_, ?_⟩
        · exact ⟨fun _ => Or.inr (Or.inr (Or.inr h3)),
            fun _ => ⟨"Step too small. Can not be smaller than the difference between", rfl⟩⟩
        · intro p hp; cases hp
      · rw [if_neg h3]
        refine ⟨?_, ?_⟩
        · constructor
          · rintro ⟨e, he⟩; cases he
          · intro hc
            exfalso
            rcases hc with hc | hc | hc | hc
            · exact h1 hc
            · exact h2 (Or.inl hc)
            · exact h2 (Or.inr hc)
            · exact h3 hc
        · intro p hp
          cases hp
          simp [Parameter.get_value]

/-- Witness for C6 (amended): concrete valid arguments, `build` succeeds
with the default as value. -/
theorem build_err_iff_and_ok_value_witness :
    ∃ p, ((ParameterBuilder.new "test").with_default 0.5).build = .ok p ∧
      p.get_value = 0.5 := by
  have hok : ((ParameterBuilder.new "test").with_default 0.5).build =
      .ok { max := 1, min := 0, step := 0.1, default := 0.5, current := 0.5, tag := "test" } := by
    norm_num [ParameterBuilder.build, ParameterBuilder.new, ParameterBuilder.with_default]
  refine ⟨_, hok, ?_⟩
  have h := (build_err_iff_and_ok_value
    ((ParameterBuilder.new "test").with_default 0.5)).2 _ hok
  simpa [ParameterBuilder.with_default, ParameterBuilder.new] using h.1

/-- C10: a `ParameterBuilder` with unset fields uses the defaults
`max = 1.0`, `min = 0.0`, `step = 0.1`, `default = 0.0`; hence
`ParameterBuilder.new tag |>.build` always succeeds and the resulting
parameter has `get_value = 0`. -/
theorem new_build_defaults (tag : String) :
    (ParameterBuilder.new tag).build =
      .ok { max := 1.0, min := 0.0, step := 0.1, default := 0.0, current := 0.0, tag := tag } ∧
    ∀ p, (ParameterBuilder.new tag).build = .ok p → p.get_value = 0 := by
  have hok : (ParameterBuilder.new tag).build =
      .ok { max := 1.0, min := 0.0, step := 0.1, default := 0.0, current := 0.0, tag := tag } := by
    norm_num [ParameterBuilder.build, ParameterBuilder.new]
  refine ⟨hok, ?_⟩
  intro p hp
  have hpe : p =
      { max := 1.0, min := 0.0, step := 0.1, default := 0.0, current := 0.0, tag := tag } := by
    have := hp.symm.trans hok
    simpa using this
  norm_num [hpe, Parameter.get_value]

/-! ## Ring buffers (SPSC channel ends, crate ringbuf) -/

/-- A bounded SPSC ring buffer (`HeapRb<f32>`): oldest sample at the head. -/
structure RingBuf where
  cap : Nat
  data : List F
  deriving Repr, DecidableEq

/-- `Producer::is_full`: no free slot left. -/
def RingBuf.is_full (rb : RingBuf) : Bool := rb.cap ≤ rb.data.length

/-- `Consumer::is_empty`. -/
def RingBuf.is_empty (rb : RingBuf) : Bool := rb.data.isEmpty

/-- `Producer::push` after a not-full check always succeeds; modelled total. -/
def RingBuf.push (rb : RingBuf) (x : F) : RingBuf := { rb with data := rb.data ++ [x] }

/-- `Consumer::pop`: takes the oldest unread sample. -/
def RingBuf.pop (rb : RingBuf) : Option (F × RingBuf) :=
  match rb.data with
  | [] => none
  | x :: xs => some (x, { rb with data := xs })

/-- Shared ring-buffer heap: both ends of a channel name the same slot.
An out-of-range index (impossible in the source, where handles are owned)
reads as an empty zero-capacity buffer. -/
def storeGet (store : List RingBuf) (i : Nat) : RingBuf := store.getD i { cap := 0, data := [] }

/-! ## AuxiliaryInput (src/src/module/aux_input.rs) -/

/-- `AuxDataHolder`: a batch vector or the consumer end of a ring buffer
(modelled as an index into the shared ring-buffer heap). -/
inductive AuxDataHolder where
  | batch (buffer : List F)
  | realTime (consumer : Nat)
  deriving Repr, DecidableEq

/-- `AuxDataHolder::is_batch`. -/
def AuxDataHolder.is_batch : AuxDataHolder → Bool
  | .batch _ => true
  | .realTime _ => false

/-- `AuxDataHolder::reverse_buffer`: reverses a batch buffer in place,
errors on real-time data. -/
def AuxDataHolder.reverse_buffer : AuxDataHolder → Except String AuxDataHolder
  | .batch buffer => .ok (.batch buffer.reverse)
  | .realTime _ => .error "Buffer cannot be reversed in real time processing"

/-- `Vec::pop`: removes and returns the last element. -/
def popBack : List F → Option (F × List F)
  | [] => none
  | [x] => some (x, [])
  | x :: y :: xs => (popBack (y :: xs)).map (fun p => (p.1, x :: p.2))

/-- `AuxiliaryInput` struct from src/src/module/aux_input.rs. -/
structure AuxiliaryInput where
  tag : String
  data : AuxDataHolder
  max : F
  min : F
  deriving Repr, DecidableEq

/-- `AuxiliaryInput::get_tag`. -/
def AuxiliaryInput.get_tag (a : AuxiliaryInput) : String := a.tag

/-- `AuxiliaryInput::translate`: affine map of a raw value from the module
output range `(-1, 1)` onto `(min, max)`. -/
def AuxiliaryInput.translate (a : AuxiliaryInput) (value : F) : F :=
  ((value - (-1.0)) / (1.0 - (-1.0))) * (a.max - a.min) + a.min

/-- The raw value the underlying source would yield next (batch vectors
from the tail, ring buffers from the oldest unread sample). -/
def AuxDataHolder.next_raw (d : AuxDataHolder) (store : List RingBuf) : Option F :=
  match d with
  | .batch buffer => (popBack buffer).map (·.1)
  | .realTime c => ((storeGet store c).pop).map (·.1)

/-- `AuxiliaryInput::pop`: pops the next raw value from the holder and
translates it; `none` once the source is exhausted.  Returns the value,
the updated input and the updated ring-buffer heap. -/
def AuxiliaryInput.pop (a : AuxiliaryInput) (store : List RingBuf) :
    Option F × AuxiliaryInput × List RingBuf :=
  match a.data with
  | .batch buffer =>
    match popBack buffer with
    | some (x, rest) => (some (a.translate x), { a with data := .batch rest }, store)
    | none => (none, a, store)
  | .realTime c =>
    match (storeGet store c).pop with
    | some (x, rb) => (some (a.translate x), a, store.set c rb)
    | none => (none, a, store)

/-- `AuxInputBuilder` struct from src/src/module/aux_input.rs. -/
structure AuxInputBuilder where
  tag : String
  data : AuxDataHolder
  max : Option F
  min : Option F
  deriving Repr, DecidableEq

/-- `AuxInputBuilder::new`. -/
def AuxInputBuilder.new (tag : String) (data : AuxDataHolder) : AuxInputBuilder :=
  { tag := tag, data := data, max := none, min := none }

/-- `AuxInputBuilder::with_max`. -/
def AuxInputBuilder.with_max (b : AuxInputBuilder) (mx : F) : AuxInputBuilder :=
  { b with max := some mx }

/-- `AuxInputBuilder::with_min`. -/
def AuxInputBuilder.with_min (b : AuxInputBuilder) (mn : F) : AuxInputBuilder :=
  { b with min := some mn }

/-- `AuxInputBuilder::with_all_yaml`. -/
def AuxInputBuilder.with_all_yaml (b : AuxInputBuilder) (mx mn : Option F) : AuxInputBuilder :=
  { b with max := mx, min := mn }

/-- `AuxInputBuilder::build`: defaults `max = 1.0`, `min = 0.0`, rejects
`max < min`. -/
def AuxInputBuilder.build (b : AuxInputBuilder) : Except String AuxiliaryInput :=
  let mx := b.max.getD 1.0
  let mn := b.min.getD 0.0
  if mx < mn then .error "Invalid range"
  else .ok { tag := b.tag, data := b.data, max := mx, min := mn }

/-! ## Theorem for C2 -/

/-- C2: `translate` is the affine map
`((raw - (-1)) / (1 - (-1))) * (max - min) + min`, so `-1` maps to the
range minimum, `0` to the midpoint and `1` to the range maximum; and every
value returned by `pop` is the translation of the next raw value of the
underlying source. -/
theorem translate_affine_and_pop_translates (a : AuxiliaryInput) :
    (∀ raw : F, a.translate raw = ((raw - (-1)) / (1 - (-1))) * (a.max - a.min) + a.min) ∧
    a.translate (-1) = a.min ∧
    a.translate 0 = (a.min + a.max) / 2 ∧
    a.translate 1 = a.max ∧
    (∀ store, (a.pop store).1 = (a.data.next_raw store).map a.translate) := by
  refine ⟨fun raw => by norm_num [AuxiliaryInput.translate], ?_, ?_, ?_, ?_⟩
  · show ((-1 - (-1.0)) / (1.0 - (-1.0))) * (a.max - a.min) + a.min = a.min
    norm_num
  · show ((0 - (-1.0)) / (1.0 - (-1.0))) * (a.max - a.min) + a.min = (a.min + a.max) / 2
    norm_num
    ring
  · show ((1 - (-1.0)) / (1.0 - (-1.0))) * (a.max - a.min) + a.min = a.max
    norm_num
  · intro store
    cases hd : a.data with
    | batch buffer =>
      cases hb : popBack buffer with
      | none => simp [AuxiliaryInput.pop, AuxDataHolder.next_raw, hd, hb]
      | some p => simp [AuxiliaryInput.pop, AuxDataHolder.next_raw, hd, hb]
    | realTime c =>
      cases hb : (storeGet store c).pop with
      | none => simp [AuxiliaryInput.pop, AuxDataHolder.next_raw, hd, hb]
      | some p => simp [AuxiliaryInput.pop, AuxDataHolder.next_raw, hd, hb]

/-! ## HashMap<String, f32>, modelled as an association list -/

/-- `HashMap::get`: first (and, in a built map, only) entry with the key. -/
def lookupPair : List (String × F) → String → Option F
  | [], _ => none
  | (t, v) :: rest, tag => if t = tag then some v else lookupPair rest tag

/-- HashMap insertion: replaces the value of an existing key, else appends. -/
def insertPair : List (String × F) → String → F → List (String × F)
  | [], tag, v => [(tag, v)]
  | (t, w) :: rest, tag, v =>
    if t = tag then (t, v) :: rest else (t, w) :: insertPair rest tag v

/-- Collecting an iterator of pairs into a `HashMap`: a later pair with an
equal key overwrites an earlier one.  The iteration order of the Rust map
is unspecified; it is fixed here to first-insertion order (the parameter
updates driven by the map act on distinct tags, so any order is
equivalent). -/
def hashMapOfList (pairs : List (String × F)) : List (String × F) :=
  pairs.foldl (fun acc p => insertPair acc p.1 p.2) []

/-! ## Module trait (src/src/module/module.rs) -/

/-- A concrete implementor of the `Module` trait: the parameter list its
`get_parameters`/`get_parameters_mutable` expose (`none` models an
implementor returning `None`) and the pure `behaviour` function, which
reads the module state only through the parameters. -/
structure Module where
  params : Option (List Parameter)
  behaviour : List Parameter → F → F → F
  name : String

/-- `Module::get_name`. -/
def Module.get_name (m : Module) : String := m.name

/-- `Module::get_parameters` (and `get_parameters_mutable`, which exposes
the same list mutably). -/
def Module.get_parameters (m : Module) : Option (List Parameter) := m.params

/-- `Module::get_sample`: delegates to `behaviour(in_sample, time)`. -/
def Module.get_sample (m : Module) (in_sample time : F) : F :=
  m.behaviour (m.params.getD []) in_sample time

/-- `get_parameter_mutable` followed by `Parameter::set`, as the default
`update_parameters` uses it: set the first parameter whose tag matches;
an absent tag changes nothing (only an error is logged). -/
def setFirstByTag : List Parameter → String → F → List Parameter
  | [], _, _ => []
  | p :: ps, tag, v =>
    if p.get_tag = tag then p.set v :: ps else p :: setFirstByTag ps tag v

/-- `Module::update_parameters`: for each map entry look the parameter up
by tag and `set` it. -/
def Module.update_parameters (m : Module) (auxiliaries : List (String × F)) : Module :=
  auxiliaries.foldl
    (fun acc tv =>
      match acc.params with
      | some ps => { acc with params := some (setFirstByTag ps tv.1 tv.2) }
      | none => acc)
    m

/-- `Module::get_sample_w_aux`: update the parameters, then sample. -/
def Module.get_sample_w_aux (m : Module) (in_sample time : F)
    (auxiliaries : List (String × F)) : Module × F :=
  let m' := m.update_parameters auxiliaries
  (m', m'.get_sample in_sample time)

/-- `Module::get_current_parameter_values`: the tag ↦ current-value map. -/
def Module.get_current_parameter_values (m : Module) : List (String × F) :=
  match m.params with
  | some ps => hashMapOfList (ps.map fun p => (p.get_tag, p.get_value))
  | none => []

/-- The raw pair sequence collected by `pop_auxiliaries` before the
`HashMap` is built; `none` models the `unwrap` panic when an exhausted
auxiliary's tag is absent from `current_values`. -/
def popAuxPairs : List AuxiliaryInput → List (String × F) → List RingBuf →
    Option (List (String × F) × List AuxiliaryInput × List RingBuf)
  | [], _, store => some ([], [], store)
  | a :: rest, current_values, store =>
    let r := a.pop store
    match r.1 with
    | some v =>
      (popAuxPairs rest current_values r.2.2).map
        (fun q => ((a.get_tag, v) :: q.1, r.2.1 :: q.2.1, q.2.2))
    | none =>
      match lookupPair current_values a.get_tag with
      | some prev =>
        (popAuxPairs rest current_values r.2.2).map
          (fun q => ((a.get_tag, prev) :: q.1, r.2.1 :: q.2.1, q.2.2))
      | none => none

/-- `pop_auxiliaries` from src/src/module/module.rs: pop one value from
every auxiliary, falling back to the current value of the targeted
parameter on exhaustion (panicking if that tag has no current value), and
collect the pairs into a map. -/
def pop_auxiliaries (auxs : List AuxiliaryInput) (current_values : List (String × F))
    (store : List RingBuf) :
    Option (List (String × F) × List AuxiliaryInput × List RingBuf) :=
  (popAuxPairs auxs current_values store).map (fun q => (hashMapOfList q.1, q.2))

/-! ## Clock (src/src/module/real_time.rs) -/

/-- `Clock` struct from src/src/module/real_time.rs. -/
structure Clock where
  tick : F
  sample_rate : F
  deriving Repr, DecidableEq

/-- `Clock::new`. -/
def Clock.new (sample_rate : Int) : Clock :=
  { tick := 0.0, sample_rate := (sample_rate : F) }

/-- `Clock::new_at`. -/
def Clock.new_at (sample_rate : Int) (start_at : F) : Clock :=
  { tick := start_at, sample_rate := (sample_rate : F) }

/-- `Clock::get_sample_pos`. -/
def Clock.get_sample_pos (c : Clock) : F := c.tick

/-- `Clock::get_time`. -/
def Clock.get_time (c : Clock) : F := c.tick / c.sample_rate

/-- `Clock::get_sample_rate`. -/
def Clock.get_sample_rate (c : Clock) : F := c.sample_rate

/-- `Clock::inc`: returns `tick / sample_rate` for the previous tick and
advances the tick, wrapping modulo the sample rate. -/
def Clock.inc (c : Clock) : F × Clock :=
  (c.tick / c.sample_rate, { c with tick := fRem (c.tick + 1.0) c.sample_rate })

/-- `Clock::get_value` — the raw tick.  `fill_buffer_at` in
src/src/module/module.rs calls this method; it is defined on the `Clock`
of the sibling file src/src/module.rs (the clock of real_time.rs names the
same accessor `get_sample_pos`). -/
def Clock.get_value (c : Clock) : F := c.tick

/-! ## Default fill_buffer_at (src/src/module/module.rs) -/

/-- The reversal pass of `fill_buffer_at`:
`auxiliaries.iter_mut().for_each(|aux| aux.get_mut_data().reverse_buffer().unwrap())`.
`none` models the `unwrap` panic on a real-time auxiliary. -/
def reverseAll : List AuxiliaryInput → Option (List AuxiliaryInput)
  | [] => some []
  | a :: rest =>
    match a.data.reverse_buffer with
    | .ok d => (reverseAll rest).map (fun l => { a with data := d } :: l)
    | .error _ => none

/-- The per-slot loop of `fill_buffer_at`: for every slot, pop one value
from every auxiliary, update the parameters, then overwrite the slot with
`get_sample(old value, clock.inc())`.  The ring-buffer heap is empty here:
only batch auxiliaries survive the reversal pass. -/
def fillLoop : Module → List AuxiliaryInput → Clock → List F →
    Option (List F × Module × List AuxiliaryInput × Clock)
  | m, auxs, ck, [] => some ([], m, auxs, ck)
  | m, auxs, ck, sample :: rest =>
    match pop_auxiliaries auxs m.get_current_parameter_values [] with
    | none => none
    | some (mp, auxs', _) =>
      let m' := m.update_parameters mp
      let tc := ck.inc
      let out := m'.get_sample sample tc.1
      (fillLoop m' auxs' tc.2 rest).map (fun q => (out :: q.1, q.2))

/-- `Module::fill_buffer_at` (default implementation): reverse every
auxiliary buffer, run the per-slot loop with a local clock started at
`start_at` (sample rate hard-coded to 44100), and return the final buffer,
the updated module and the last value of the clock. -/
def Module.fill_buffer_at (m : Module) (buffer : List F) (start_at : F)
    (auxiliaries : List AuxiliaryInput) : Option (List F × Module × F) :=
  let clock := Clock.new_at 44100 start_at
  match reverseAll auxiliaries with
  | none => none
  | some auxs =>
    (fillLoop m auxs clock buffer).map (fun q => (q.1, q.2.1, q.2.2.2.get_value))

/-- `Module::fill_buffer`: `fill_buffer_at` with the clock started at 0. -/
def Module.fill_buffer (m : Module) (buffer : List F)
    (auxiliaries : List AuxiliaryInput) : Option (List F × Module × F) :=
  m.fill_buffer_at buffer 0.0 auxiliaries

/-! ## Specification-side description of fill_buffer_at (for C3)

The claim describes `fill_buffer_at` as walking the buffer slot by slot,
consuming each batch auxiliary from the temporally-first sample forward.
The following definitions state that description directly, with forward
indexing instead of the reverse-then-pop-from-the-tail mechanism of the
source; the refinement theorem identifies the two. -/

/-- Value the claim says slot `i` draws from one batch auxiliary: the
`i`-th buffer element, translated. -/
def specAuxValueAt (a : AuxiliaryInput) (i : Nat) : Option F :=
  match a.data with
  | .batch b => (b.get? i).map a.translate
  | .realTime _ => none

/-- The per-slot map the claim describes: one value per auxiliary, the
parameter's current value as fallback on exhaustion (no value at all —
a panic — when the fallback tag is absent). -/
def specMapAt : List AuxiliaryInput → Nat → List (String × F) → Option (List (String × F))
  | [], _, _ => some []
  | a :: rest, i, cur =>
    match specAuxValueAt a i with
    | some v => (specMapAt rest i cur).map (fun l => (a.get_tag, v) :: l)
    | none =>
      match lookupPair cur a.get_tag with
      | some prev => (specMapAt rest i cur).map (fun l => (a.get_tag, prev) :: l)
      | none => none

/-- Slot-indexed restatement of the fill loop: slot `i` first applies the
per-slot map, then samples with the clock time of slot `i`, and the final
clock value is returned. -/
def specLoop : List AuxiliaryInput → Nat → Module → F → List F → Option (List F × Module × F)
  | _, _, m, t, [] => some ([], m, t)
  | auxs, i, m, t, sample :: rest =>
    match specMapAt auxs i m.get_current_parameter_values with
    | none => none
    | some pairs =>
      let m' := m.update_parameters (hashMapOfList pairs)
      let out := m'.get_sample sample (t / 44100)
      (specLoop auxs (i + 1) m' (fRem (t + 1.0) 44100) rest).map (fun q => (out :: q.1, q.2))

/-- The claim's description of `fill_buffer_at`, to be compared with the
source translation `Module.fill_buffer_at`. -/
def specFillBufferAt (m : Module) (buffer : List F) (start_at : F)
    (auxs : List AuxiliaryInput) : Option (List F × Module × F) :=
  specLoop auxs 0 m start_at buffer

/-- An auxiliary as the fill loop holds it after serving `i` slots: the
first `i` batch samples consumed, the remainder still reversed. -/
def dropReversed (i : Nat) (a : AuxiliaryInput) : AuxiliaryInput :=
  match a.data with
  | .batch b => { a with data := .batch ((b.drop i).reverse) }
  | .realTime _ => a

theorem popBack_append (ys : List F) (x : F) : popBack (ys ++ [x]) = some (x, ys) := by
  induction ys with
  | nil => rfl
  | cons y ys ih =>
    cases hys : ys ++ [x] with
    | nil => exact absurd hys (by simp)
    | cons z zs =>
      show popBack (y :: ys ++ [x]) = some (x, y :: ys)
      rw [List.cons_append, hys]
      show (popBack (z :: zs)).map (fun p => (p.1, y :: p.2)) = some (x, y :: ys)
      rw [← hys, ih]
      rfl

theorem storeGet_nil (i : Nat) : storeGet [] i = { cap := 0, data := [] } := by
  cases i <;> rfl

theorem dropReversed_tag (i : Nat) (a : AuxiliaryInput) :
    (dropReversed i a).get_tag = a.get_tag := by
  unfold dropReversed
  cases a.data <;> rfl

/-- One pop from a partially consumed batch auxiliary yields the next
forward-indexed sample. -/
theorem pop_dropReversed (a : AuxiliaryInput) (b : List F) (i : Nat)
    (hb : a.data = .batch b) (store : List RingBuf) :
    (dropReversed i a).pop store =
      match b[i]? with
      | some x => (some (a.translate x), dropReversed (i + 1) a, store)
      | none => (none, dropReversed i a, store) := by
  have hdr : dropReversed i a = { a with data := .batch ((b.drop i).reverse) } := by
    unfold dropReversed
    rw [hb]
  have hdr' : dropReversed (i + 1) a = { a with data := .batch ((b.drop (i + 1)).reverse) } := by
    unfold dropReversed
    rw [hb]
  cases hdrop : b.drop i with
  | nil =>
    have hget : b[i]? = none := by
      apply List.getElem?_eq_none
      exact List.drop_eq_nil_iff.mp hdrop
    rw [hdr, hget]
    simp [AuxiliaryInput.pop, hdrop, popBack, hdr]
  | cons x xs =>
    have hget : b[i]? = some x := by
      have h2 := List.head?_drop b i
      rw [hdrop] at h2
      exact h2.symm
    have htail : xs = b.drop (i + 1) := by
      have h2 := List.tail_drop b i
      rw [hdrop] at h2
      simpa using h2
    rw [hdr, hget]
    simp only [AuxiliaryInput.pop, hdrop, List.reverse_cons, popBack_append]
    rw [hdr', ← htail]
    simp [AuxiliaryInput.translate]

/-- `pop_auxiliaries` on the fill loop's auxiliary state computes the
claim's per-slot map and advances every batch auxiliary by one sample. -/
theorem popAuxPairs_dropReversed (auxs : List AuxiliaryInput)
    (hbatch : ∀ a ∈ auxs, a.data.is_batch = true)
    (cur : List (String × F)) (store : List RingBuf) (i : Nat) :
    popAuxPairs (auxs.map (dropReversed i)) cur store =
      (specMapAt auxs i cur).map
        (fun pairs => (pairs, auxs.map (dropReversed (i + 1)), store)) := by
  induction auxs with
  | nil => rfl
  | cons a rest ih =>
    obtain ⟨b, hb⟩ : ∃ b, a.data = .batch b := by
      have := hbatch a (List.mem_cons_self a rest)
      cases hd : a.data with
      | batch bb => exact ⟨bb, rfl⟩
      | realTime c => rw [hd] at this; simp [AuxDataHolder.is_batch] at this
    have hrest : ∀ x ∈ rest, x.data.is_batch = true :=
      fun x hx => hbatch x (List.mem_cons_of_mem a hx)
    have hpop := pop_dropReversed a b i hb store
    show popAuxPairs (dropReversed i a :: rest.map (dropReversed i)) cur store = _
    cases hget : b[i]? with
    | some x =>
      rw [hget] at hpop
      have hval : specAuxValueAt a i = some (a.translate x) := by
        simp [specAuxValueAt, hb, hget]
      simp only [popAuxPairs, hpop, dropReversed_tag]
      rw [ih hrest]
      simp only [specMapAt, hval]
      cases specMapAt rest i cur <;> simp [List.map]
    | none =>
      rw [hget] at hpop
      have hval : specAuxValueAt a i = none := by
        simp [specAuxValueAt, hb, hget]
      simp only [popAuxPairs, hpop, dropReversed_tag]
      simp only [specMapAt, hval]
      cases hlk : lookupPair cur a.get_tag with
      | none => rfl
      | some prev =>
        rw [ih hrest]
        have hlen : b.length ≤ i := by
          by_contra hcon
          push_neg at hcon
          rw [List.getElem?_eq_getElem hcon] at hget
          cases hget
        have heq : dropReversed i a = dropReversed (i + 1) a := by
          simp only [dropReversed, hb]
          rw [List.drop_eq_nil_of_le hlen, List.drop_eq_nil_of_le (by omega)]
        rw [heq]
        cases specMapAt rest i cur <;> simp [List.map]

/-- On batch-only auxiliaries the reversal pass succeeds and leaves each
auxiliary ready to serve slot 0. -/
theorem reverseAll_batch (auxs : List AuxiliaryInput)
    (hbatch : ∀ a ∈ auxs, a.data.is_batch = true) :
    reverseAll auxs = some (auxs.map (dropReversed 0)) := by
  induction auxs with
  | nil => rfl
  | cons a rest ih =>
    obtain ⟨b, hb⟩ : ∃ b, a.data = .batch b := by
      have hh := hbatch a (List.mem_cons_self a rest)
      cases hd : a.data with
      | batch bb => exact ⟨bb, rfl⟩
      | realTime c => rw [hd] at hh; simp [AuxDataHolder.is_batch] at hh
    have hrest : ∀ x ∈ rest, x.data.is_batch = true :=
      fun x hx => hbatch x (List.mem_cons_of_mem a hx)
    simp only [reverseAll, hb, AuxDataHolder.reverse_buffer]
    rw [ih hrest]
    simp [dropReversed, hb]

/-- The fill loop, started at slot `i` with tick `t`, is the slot-indexed
loop of the claim; it also advances every auxiliary by the number of slots
served and ends with the expected clock. -/
theorem fillLoop_spec (buffer : List F) (auxs : List AuxiliaryInput)
    (hbatch : ∀ a ∈ auxs, a.data.is_batch = true) :
    ∀ (m : Module) (i : Nat) (t : F),
    fillLoop m (auxs.map (dropReversed i)) { tick := t, sample_rate := (44100 : F) } buffer =
      (specLoop auxs i m t buffer).map
        (fun q => (q.1, q.2.1, auxs.map (dropReversed (i + buffer.length)),
          ({ tick := q.2.2, sample_rate := (44100 : F) } : Clock))) := by
  induction buffer with
  | nil =>
    intro m i t
    simp [fillLoop, specLoop]
  | cons sample rest ih =>
    intro m i t
    have hpa : pop_auxiliaries (auxs.map (dropReversed i)) m.get_current_parameter_values [] =
        (specMapAt auxs i m.get_current_parameter_values).map
          (fun pairs =>
            (hashMapOfList pairs, auxs.map (dropReversed (i + 1)), ([] : List RingBuf))) := by
      unfold pop_auxiliaries
      rw [popAuxPairs_dropReversed auxs hbatch _ _ i]
      cases specMapAt auxs i m.get_current_parameter_values <;> rfl
    simp only [fillLoop, specLoop, hpa]
    cases hsm : specMapAt auxs i m.get_current_parameter_values with
    | none => rfl
    | some pairs =>
      simp only [Option.map_some', Clock.inc]
      rw [ih (m.update_parameters (hashMapOfList pairs)) (i + 1) (fRem (t + 1.0) 44100)]
      have hidx : i + 1 + rest.length = i + (rest.length + 1) := by omega
      rw [hidx]
      cases specLoop auxs (i + 1) (m.update_parameters (hashMapOfList pairs))
        (fRem (t + 1.0) 44100) rest <;> simp [List.length_cons]

/-- C3: on batch auxiliaries the default `fill_buffer_at` is exactly the
claim's slot-by-slot description: a clock advanced from the start time,
one value popped per auxiliary per slot (batch values consumed from the
temporally-first sample forward), parameters applied via
`update_parameters`, each slot overwritten with
`sample(old value, clock time of the slot)`, the last clock value
returned; and `fill_buffer` is `fill_buffer_at` with start time 0. -/
theorem fill_buffer_at_is_slotwise_spec (m : Module) (buffer : List F) (start_at : F)
    (auxs : List AuxiliaryInput) (hbatch : ∀ a ∈ auxs, a.data.is_batch = true) :
    m.fill_buffer_at buffer start_at auxs = specFillBufferAt m buffer start_at auxs ∧
    m.fill_buffer buffer auxs = m.fill_buffer_at buffer 0.0 auxs := by
  refine ⟨?_, rfl⟩
  unfold Module.fill_buffer_at specFillBufferAt
  rw [reverseAll_batch auxs hbatch]
  have hck : Clock.new_at 44100 start_at =
      { tick := start_at, sample_rate := (44100 : F) } := by
    unfold Clock.new_at
    norm_num
  show Option.map (fun q => (q.1, q.2.1, q.2.2.2.get_value))
      (fillLoop m (auxs.map (dropReversed 0)) (Clock.new_at 44100 start_at) buffer) =
    specLoop auxs 0 m start_at buffer
  rw [hck, fillLoop_spec buffer auxs hbatch m 0 start_at]
  rw [Option.map_map]
  cases specLoop auxs 0 m start_at buffer <;> simp [Clock.get_value]

/-- Witness for C3: a one-parameter module, one batch auxiliary, two
slots; the theorem applied at these concrete inputs. -/
theorem fill_buffer_at_is_slotwise_spec_witness :
    (Module.fill_buffer_at
        { params := some [{ max := 1, min := 0, step := 0.1, default := 0, current := 0,
                            tag := "amplitude" }],
          behaviour := fun _ps inp t => inp + t, name := "m" }
        [0.5, 0.5] 0.0
        [{ tag := "amplitude", data := .batch [0.25, -0.25], max := 1, min := 0 }] =
      specFillBufferAt
        { params := some [{ max := 1, min := 0, step := 0.1, default := 0, current := 0,
                            tag := "amplitude" }],
          behaviour := fun _ps inp t => inp + t, name := "m" }
        [0.5, 0.5] 0.0
        [{ tag := "amplitude", data := .batch [0.25, -0.25], max := 1, min := 0 }]) ∧
    (Module.fill_buffer
        { params := some [{ max := 1, min := 0, step := 0.1, default := 0, current := 0,
                            tag := "amplitude" }],
          behaviour := fun _ps inp t => inp + t, name := "m" }
        [0.5, 0.5]
        [{ tag := "amplitude", data := .batch [0.25, -0.25], max := 1, min := 0 }] =
      Module.fill_buffer_at
        { params := some [{ max := 1, min := 0, step := 0.1, default := 0, current := 0,
                            tag := "amplitude" }],
          behaviour := fun _ps inp t => inp + t, name := "m" }
        [0.5, 0.5] 0.0
        [{ tag := "amplitude", data := .batch [0.25, -0.25], max := 1, min := 0 }]) :=
  fill_buffer_at_is_slotwise_spec _ [0.5, 0.5] 0.0 _
    (by intro a ha; simp at ha; rw [ha]; rfl)

/-! ## Lemmas for C7 (exhaustion and fallback) -/

/-- Sequential pops of one auxiliary, outside any store (batch data). -/
def AuxiliaryInput.popIter (a : AuxiliaryInput) : Nat → AuxiliaryInput
  | 0 => a
  | k + 1 => ((a.popIter k).pop []).2.1

theorem popBack_eq (l : List F) :
    popBack l = (l.getLast?).map (fun x => (x, l.dropLast)) := by
  induction l using List.reverseRecOn with
  | nil => rfl
  | append_singleton ys x ih =>
    rw [popBack_append, List.getLast?_concat, List.dropLast_concat]
    rfl

theorem popIter_batch (tag : String) (mx mn : F) (b : List F) (k : Nat) :
    ∃ b', (AuxiliaryInput.popIter ⟨tag, .batch b, mx, mn⟩ k) = ⟨tag, .batch b', mx, mn⟩ ∧
      b'.length = b.length - k := by
  induction k with
  | zero => exact ⟨b, rfl, rfl⟩
  | succ k ih =>
    obtain ⟨b', hb', hlen⟩ := ih
    show ∃ b'', ((AuxiliaryInput.popIter ⟨tag, .batch b, mx, mn⟩ k).pop []).2.1 =
      ⟨tag, .batch b'', mx, mn⟩ ∧ b''.length = b.length - (k + 1)
    rw [hb']
    cases hc : b' with
    | nil =>
      refine ⟨[], ?_, ?_⟩
      · simp [AuxiliaryInput.pop, popBack]
      · rw [hc] at hlen
        simp only [List.length_nil] at hlen ⊢
        omega
    | cons y ys =>
      refine ⟨b'.dropLast, ?_, ?_⟩
      · rw [← hc]
        have : popBack b' = some ((b'.getLast (by rw [hc]; simp)), b'.dropLast) := by
          rw [popBack_eq, List.getLast?_eq_getLast b' (by rw [hc]; simp)]
          rfl
        simp [AuxiliaryInput.pop, this]
      · rw [List.length_dropLast]
        omega

theorem insertPair_notMem (mp : List (String × F)) (t : String) (v : F)
    (h : t ∉ mp.map Prod.fst) : insertPair mp t v = mp ++ [(t, v)] := by
  induction mp with
  | nil => rfl
  | cons e rest ih =>
    obtain ⟨t1, w⟩ := e
    simp only [List.map_cons, List.mem_cons] at h
    push_neg at h
    show insertPair ((t1, w) :: rest) t v = (t1, w) :: rest ++ [(t, v)]
    simp only [insertPair]
    rw [if_neg (fun hc => h.1 hc.symm), ih h.2, List.cons_append]

theorem foldl_insertPair_nodup (pairs : List (String × F)) :
    ∀ acc : List (String × F), (pairs.map Prod.fst).Nodup →
    (∀ t ∈ pairs.map Prod.fst, t ∉ acc.map Prod.fst) →
    pairs.foldl (fun a p => insertPair a p.1 p.2) acc = acc ++ pairs := by
  induction pairs with
  | nil => intro acc _ _; simp
  | cons e rest ih =>
    intro acc hnd hdisj
    have hnd2 : (rest.map Prod.fst).Nodup :=
      (List.nodup_cons.mp (by simpa using hnd)).2
    have he1 : e.1 ∉ rest.map Prod.fst :=
      (List.nodup_cons.mp (by simpa using hnd)).1
    simp only [List.foldl_cons]
    rw [insertPair_notMem acc e.1 e.2 (hdisj e.1 (by simp))]
    rw [ih (acc ++ [(e.1, e.2)]) hnd2 ?_]
    · simp
    · intro t ht
      simp only [List.map_append, List.mem_append]
      rintro (hc | hc)
      · exact hdisj t (by simp [ht]) hc
      · simp only [List.map_cons, List.map_nil, List.mem_singleton] at hc
        rw [hc] at ht
        exact he1 ht

/-- With distinct keys, collecting into a `HashMap` keeps the pair list. -/
theorem hashMapOfList_nodup (pairs : List (String × F))
    (h : (pairs.map Prod.fst).Nodup) : hashMapOfList pairs = pairs := by
  unfold hashMapOfList
  rw [foldl_insertPair_nodup pairs [] h (by simp)]
  rfl

theorem mem_insertPair (mp : List (String × F)) (t : String) (v : F) (x : String × F)
    (h : x ∈ insertPair mp t v) : x ∈ mp ∨ x = (t, v) := by
  induction mp with
  | nil => simpa [insertPair] using h
  | cons e rest ih =>
    simp only [insertPair] at h
    by_cases he : e.1 = t
    · rw [if_pos he] at h
      rcases List.mem_cons.mp h with h | h
      · right; rw [h, he]
      · left; exact List.mem_cons_of_mem e h
    · rw [if_neg he] at h
      rcases List.mem_cons.mp h with h | h
      · left; rw [h]; exact List.mem_cons_self e rest
      · rcases ih h with h | h
        · left; exact List.mem_cons_of_mem e h
        · right; exact h

theorem mem_hashMapOfList (pairs : List (String × F)) (x : String × F)
    (h : x ∈ hashMapOfList pairs) : x ∈ pairs := by
  suffices hgen : ∀ acc, x ∈ pairs.foldl (fun a p => insertPair a p.1 p.2) acc →
      x ∈ acc ∨ x ∈ pairs by
    rcases hgen [] h with hc | hc
    · cases hc
    · exact hc
  clear h
  induction pairs with
  | nil => intro acc h; exact Or.inl h
  | cons e rest ih =>
    intro acc h
    simp only [List.foldl_cons] at h
    rcases ih (insertPair acc e.1 e.2) h with hc | hc
    · rcases mem_insertPair acc e.1 e.2 x hc with hc | hc
      · exact Or.inl hc
      · right
        rw [hc]
        exact List.mem_cons_self e rest
    · right; exact List.mem_cons_of_mem e hc

/-- Setting a parameter to its looked-up current value changes nothing. -/
theorem setFirstByTag_lookup_self (ps : List Parameter) (t : String) (v : F)
    (h : lookupPair (ps.map fun p => (p.get_tag, p.get_value)) t = some v) :
    setFirstByTag ps t v = ps := by
  induction ps with
  | nil => rfl
  | cons p rest ih =>
    simp only [List.map_cons, lookupPair] at h
    by_cases he : p.get_tag = t
    · rw [if_pos he] at h
      have hv : v = p.get_value := by cases h; rfl
      simp only [setFirstByTag, if_pos he, hv]
      have : p.set p.get_value = p := by
        unfold Parameter.set Parameter.get_value
        split
        · rfl
        · rfl
      rw [this]
    · rw [if_neg he] at h
      simp only [setFirstByTag, if_neg he]
      rw [ih h]

theorem module_eta (m : Module) (ps : List Parameter) (h : m.params = some ps) :
    ({ m with params := some ps } : Module) = m := by
  cases m
  simp only at h
  rw [← h]

/-- Updating with current values only is the identity. -/
theorem update_parameters_self (m : Module) (ps : List Parameter) (h : m.params = some ps)
    (mp : List (String × F))
    (hv : ∀ x ∈ mp, lookupPair (ps.map fun p => (p.get_tag, p.get_value)) x.1 = some x.2) :
    m.update_parameters mp = m := by
  induction mp with
  | nil => rfl
  | cons e rest ih =>
    show List.foldl _ _ (e :: rest) = m
    rw [List.foldl_cons]
    have hstep :
        (match m.params with
          | some ps => { m with params := some (setFirstByTag ps e.1 e.2) }
          | none => m) = m := by
      simp only [h]
      rw [setFirstByTag_lookup_self ps e.1 e.2 (hv e (by simp))]
      exact module_eta m ps h
    show List.foldl _ (match m.params with
      | some ps => { m with params := some (setFirstByTag ps e.1 e.2) }
      | none => m) rest = m
    rw [hstep]
    exact ih (fun x hx => hv x (List.mem_cons_of_mem e hx))

/-- Popping a list of exhausted auxiliaries succeeds (when every fallback
tag is present), changes nothing, and yields only current values. -/
theorem popAuxPairs_exhausted (auxs : List AuxiliaryInput) (cur : List (String × F))
    (store : List RingBuf)
    (hex : ∀ a ∈ auxs, a.data = .batch [])
    (hlk : ∀ a ∈ auxs, (lookupPair cur a.get_tag).isSome = true) :
    ∃ pairs, popAuxPairs auxs cur store = some (pairs, auxs, store) ∧
      ∀ x ∈ pairs, lookupPair cur x.1 = some x.2 := by
  induction auxs with
  | nil => exact ⟨[], rfl, by intro x hx; cases hx⟩
  | cons a rest ih =>
    obtain ⟨pairs, hp, hpv⟩ := ih
      (fun x hx => hex x (List.mem_cons_of_mem a hx))
      (fun x hx => hlk x (List.mem_cons_of_mem a hx))
    have hpop : a.pop store = (none, a, store) := by
      have hd := hex a (List.mem_cons_self a rest)
      simp [AuxiliaryInput.pop, hd, popBack]
    obtain ⟨prev, hprev⟩ := Option.isSome_iff_exists.mp (hlk a (List.mem_cons_self a rest))
    refine ⟨(a.get_tag, prev) :: pairs, ?_, ?_⟩
    · simp only [popAuxPairs, hpop, hprev, hp]
      rfl
    · intro x hx
      rcases List.mem_cons.mp hx with hx | hx
      · rw [hx]; exact hprev
      · exact hpv x hx

/-- C7: an auxiliary over an `n`-value batch buffer yields `some` on the
first `n` pops and `none` on every later pop; when a pop during the
per-tick auxiliary drain yields `none`, the value collected for that tag
is the target parameter's current value, so a tick's update out of
exhausted auxiliaries leaves the module's parameters unchanged. -/
theorem aux_exhaustion_pop_none_and_fallback_keeps_value :
    (∀ (tag : String) (mx mn : F) (b : List F) (k : Nat),
      (((AuxiliaryInput.popIter ⟨tag, .batch b, mx, mn⟩ k).pop []).1.isSome = true ↔
        k < b.length)) ∧
    (∀ (a : AuxiliaryInput) (cur : List (String × F)) (store : List RingBuf) (c : F),
      a.data = .batch [] → lookupPair cur a.get_tag = some c →
      (a.pop store).1 = none ∧
      popAuxPairs [a] cur store = some ([(a.get_tag, c)], [a], store)) ∧
    (∀ (m : Module) (ps : List Parameter) (auxs : List AuxiliaryInput) (store : List RingBuf),
      m.params = some ps → (ps.map Parameter.get_tag).Nodup →
      (∀ a ∈ auxs, a.data = .batch []) →
      (∀ a ∈ auxs, (lookupPair m.get_current_parameter_values a.get_tag).isSome = true) →
      ∃ mp, pop_auxiliaries auxs m.get_current_parameter_values store =
          some (mp, auxs, store) ∧ m.update_parameters mp = m) := by
  refine ⟨?_, ?_, ?_⟩
  · intro tag mx mn b k
    obtain ⟨b', hb', hlen⟩ := popIter_batch tag mx mn b k
    rw [hb']
    cases hc : b' with
    | nil =>
      rw [hc] at hlen
      simp only [List.length_nil] at hlen
      simp [AuxiliaryInput.pop, popBack]
      omega
    | cons y ys =>
      have hne : b' ≠ [] := by rw [hc]; simp
      have : popBack b' = some (b'.getLast hne, b'.dropLast) := by
        rw [popBack_eq, List.getLast?_eq_getLast b' hne]
        rfl
      rw [← hc]
      simp only [AuxiliaryInput.pop, this, Option.isSome_some, true_iff]
      have : b'.length ≠ 0 := by rw [hc]; simp
      omega
  · intro a cur store c hd hlkc
    have hpop : a.pop store = (none, a, store) := by
      simp [AuxiliaryInput.pop, hd, popBack]
    refine ⟨by rw [hpop], ?_⟩
    simp only [popAuxPairs, hpop, hlkc]
    rfl
  · intro m ps auxs store hps hnd hex hlk
    obtain ⟨pairs, hp, hpv⟩ := popAuxPairs_exhausted auxs m.get_current_parameter_values store hex hlk
    refine ⟨hashMapOfList pairs, ?_, ?_⟩
    · unfold pop_auxiliaries
      rw [hp]
      rfl
    · have hcur : m.get_current_parameter_values =
          ps.map fun p => (p.get_tag, p.get_value) := by
        unfold Module.get_current_parameter_values
        simp only [hps]
        apply hashMapOfList_nodup
        rw [List.map_map]
        exact hnd
      apply update_parameters_self m ps hps
      intro x hx
      have hx' := mem_hashMapOfList pairs x hx
      have := hpv x hx'
      rw [hcur] at this
      exact this

/-- Witness for C7: a 1-value buffer popped a 2nd time is `None`; a drain
over one exhausted auxiliary collects the parameter's current value and
leaves the module unchanged. -/
theorem aux_exhaustion_pop_none_and_fallback_keeps_value_witness :
    (¬ (((AuxiliaryInput.popIter ⟨"t", .batch [1.0], 1, 0⟩ 1).pop []).1.isSome = true)) ∧
    ((({ tag := "amplitude", data := .batch [], max := 1, min := 0 } :
        AuxiliaryInput).pop []).1 = none ∧
      popAuxPairs [{ tag := "amplitude", data := .batch [], max := 1, min := 0 }]
        [("amplitude", 0.5)] [] =
        some ([("amplitude", 0.5)],
          [{ tag := "amplitude", data := .batch [], max := 1, min := 0 }], [])) ∧
    (∃ mp, pop_auxiliaries [{ tag := "amplitude", data := .batch [], max := 1, min := 0 }]
        (Module.get_current_parameter_values
          { params := some [{ max := 1, min := 0, step := 0.1, default := 0.5, current := 0.5,
                              tag := "amplitude" }],
            behaviour := fun _ps inp _t => inp, name := "m" }) [] =
          some (mp, [{ tag := "amplitude", data := .batch [], max := 1, min := 0 }], []) ∧
        Module.update_parameters
          { params := some [{ max := 1, min := 0, step := 0.1, default := 0.5, current := 0.5,
                              tag := "amplitude" }],
            behaviour := fun _ps inp _t => inp, name := "m" } mp =
          { params := some [{ max := 1, min := 0, step := 0.1, default := 0.5, current := 0.5,
                              tag := "amplitude" }],
            behaviour := fun _ps inp _t => inp, name := "m" }) := by
  refine ⟨?_, ?_, ?_⟩
  · rw [aux_exhaustion_pop_none_and_fallback_keeps_value.1 "t" 1 0 [1.0] 1]
    simp
  · exact aux_exhaustion_pop_none_and_fallback_keeps_value.2.1
      { tag := "amplitude", data := .batch [], max := 1, min := 0 }
      [("amplitude", 0.5)] [] 0.5 rfl rfl
  · exact aux_exhaustion_pop_none_and_fallback_keeps_value.2.2
      { params := some [{ max := 1, min := 0, step := 0.1, default := 0.5, current := 0.5,
                          tag := "amplitude" }],
        behaviour := fun _ps inp _t => inp, name := "m" }
      [{ max := 1, min := 0, step := 0.1, default := 0.5, current := 0.5, tag := "amplitude" }]
      [{ tag := "amplitude", data := .batch [], max := 1, min := 0 }] [] rfl
      (by simp)
      (by intro a ha; simp at ha; rw [ha])
      (by intro a ha; simp at ha; rw [ha]; rfl)

/-! ## Batch executor (src/src/layout_yaml.rs, fn fill_buffer) -/

/-- `AuxInfo` struct from src/src/layout_yaml.rs: one auxiliary routing
descriptor. -/
structure AuxInfo where
  from_module : Int
  linked_with : String
  max : Option F
  min : Option F

/-- `ChainCell` struct from src/src/layout_yaml.rs: one module of the
chain map, keyed externally by its id. -/
structure ChainCell where
  from_module : Option Int
  module : Module
  auxiliaries : List AuxInfo

/-- `HashMap::remove`: take the cell with the given id out of the map
(`none` when absent, which the source `unwrap`s into a panic). -/
def removeCell : List (Int × ChainCell) → Int → Option (ChainCell × List (Int × ChainCell))
  | [], _ => none
  | (i, c) :: rest, pos =>
    if i = pos then some (c, rest)
    else (removeCell rest pos).map (fun q => (q.1, (i, c) :: q.2))

mutual

/-- `fill_buffer` from src/src/layout_yaml.rs: remove the cell, fill one
same-length buffer per auxiliary routing recursively, then either fill the
upstream buffer recursively and run the module over it, or (generator
leaf) run the module over a zero-filled buffer of the requested length.
The extra `fuel` argument only bounds the recursion depth for Lean; the
wrapper `fillChain` supplies more fuel than any run can consume, so `none`
models precisely the panics of the source (`remove(..).unwrap()`, the
auxiliary builder `unwrap`, panics inside `fill_buffer`).  The
`sample_rate` argument of the source is dropped: the `Module` trait method
it is forwarded to (src/src/module/module.rs) takes no such argument and
hard-codes 44100. -/
def fillChainF : Nat → List (Int × ChainCell) → Int → Nat →
    Option (List F × List (Int × ChainCell))
  | 0, _, _, _ => none
  | fuel + 1, chain, pos, bufSize =>
    match removeCell chain pos with
    | none => none
    | some (cell, chain1) =>
      match fillAuxList fuel cell.auxiliaries chain1 bufSize with
      | none => none
      | some (aux_list, chain2) =>
        match cell.from_module with
        | some next_id =>
          match fillChainF fuel chain2 next_id bufSize with
          | none => none
          | some (buffer, chain3) =>
            match cell.module.fill_buffer buffer aux_list with
            | none => none
            | some q => some (q.1, chain3)
        | none =>
          match cell.module.fill_buffer (List.replicate bufSize 0.0) aux_list with
          | none => none
          | some q => some (q.1, chain2)

/-- The auxiliary loop of `fill_buffer`: fill a buffer per routing
descriptor, wrap it as a batch `AuxiliaryInput` with the declared range
(`build().unwrap()`), and collect. -/
def fillAuxList : Nat → List AuxInfo → List (Int × ChainCell) → Nat →
    Option (List AuxiliaryInput × List (Int × ChainCell))
  | _, [], chain, _ => some ([], chain)
  | fuel, info :: rest, chain, bufSize =>
    match fillChainF fuel chain info.from_module bufSize with
    | none => none
    | some (aux_buffer, chain1) =>
      match ((AuxInputBuilder.new info.linked_with (.batch aux_buffer)).with_all_yaml
          info.max info.min).build with
      | .error _ => none
      | .ok aux =>
        match fillAuxList fuel rest chain1 bufSize with
        | none => none
        | some (auxes, chain2) => some (aux :: auxes, chain2)

end

/-- The batch executor entry point: `fill_buffer(chain, root, size)` with
enough fuel that the `fuel = 0` cut-off is never the cause of a `none`
(every recursion level removes one cell first, so the depth is bounded by
the number of cells). -/
def fillChain (chain : List (Int × ChainCell)) (root_id : Int) (buffer_size : Nat) :
    Option (List F × List (Int × ChainCell)) :=
  fillChainF (chain.length + 1) chain root_id buffer_size

/-! ## Lemmas for C4 -/

theorem fillLoop_length (buffer : List F) :
    ∀ (m : Module) (auxs : List AuxiliaryInput) (ck : Clock) r,
    fillLoop m auxs ck buffer = some r → r.1.length = buffer.length := by
  induction buffer with
  | nil =>
    intro m auxs ck r h
    cases h
    rfl
  | cons sample rest ih =>
    intro m auxs ck r h
    simp only [fillLoop] at h
    split at h
    · cases h
    · rename_i mp auxs2 store heq
      rw [Option.map_eq_some'] at h
      obtain ⟨q, hq, hr⟩ := h
      rw [← hr]
      simp only [List.length_cons]
      rw [ih _ _ _ q hq]

theorem fill_buffer_length (m : Module) (buffer : List F) (auxs : List AuxiliaryInput) (r) :
    m.fill_buffer buffer auxs = some r → r.1.length = buffer.length := by
  intro h
  unfold Module.fill_buffer Module.fill_buffer_at at h
  split at h
  · cases h
  · rw [Option.map_eq_some'] at h
    obtain ⟨q, hq, hr⟩ := h
    rw [← hr]
    exact fillLoop_length buffer _ _ _ q hq

theorem removeCell_sublist : ∀ (chain : List (Int × ChainCell)) (pos : Int) (cell chain1),
    removeCell chain pos = some (cell, chain1) → chain1.Sublist chain := by
  intro chain
  induction chain with
  | nil => intro pos cell chain1 h; cases h
  | cons e rest ih =>
    intro pos cell chain1 h
    obtain ⟨i, c⟩ := e
    simp only [removeCell] at h
    by_cases hip : i = pos
    · rw [if_pos hip] at h
      simp only [Option.some.injEq, Prod.mk.injEq] at h
      rw [← h.2]
      exact List.sublist_cons_self (i, c) rest
    · rw [if_neg hip, Option.map_eq_some'] at h
      obtain ⟨q, hq, hr⟩ := h
      simp only [Prod.mk.injEq] at hr
      rw [← hr.2]
      exact (ih pos q.1 q.2 (by rw [hq])).cons₂ (i, c)

theorem removeCell_keys : ∀ (chain : List (Int × ChainCell)) (pos : Int) (cell chain1),
    removeCell chain pos = some (cell, chain1) → (chain.map Prod.fst).Nodup →
    pos ∉ chain1.map Prod.fst := by
  intro chain
  induction chain with
  | nil => intro pos cell chain1 h; cases h
  | cons e rest ih =>
    intro pos cell chain1 h hnd
    obtain ⟨i, c⟩ := e
    simp only [List.map_cons, List.nodup_cons] at hnd
    simp only [removeCell] at h
    by_cases hip : i = pos
    · rw [if_pos hip] at h
      simp only [Option.some.injEq, Prod.mk.injEq] at h
      rw [← h.2, ← hip]
      exact hnd.1
    · rw [if_neg hip, Option.map_eq_some'] at h
      obtain ⟨q, hq, hr⟩ := h
      simp only [Prod.mk.injEq] at hr
      rw [← hr.2]
      simp only [List.map_cons, List.mem_cons]
      rintro (hc | hc)
      · exact hip hc.symm
      · exact ih pos q.1 q.2 (by rw [hq]) hnd.2 hc

/-- Success of the recursive fill implies: the produced buffer has the
requested length, and the residual map is a sub-map of the input with the
root cell removed (cells are only ever consumed, never duplicated). -/
theorem chain_sound (fuel : Nat) :
    (∀ chain pos n buf rest, fillChainF fuel chain pos n = some (buf, rest) →
      buf.length = n ∧
      ∃ cell chain1, removeCell chain pos = some (cell, chain1) ∧ rest.Sublist chain1) ∧
    (∀ infos chain n auxes rest, fillAuxList fuel infos chain n = some (auxes, rest) →
      rest.Sublist chain) := by
  induction fuel with
  | zero =>
    constructor
    · intro chain pos n buf rest h
      simp [fillChainF] at h
    · intro infos
      cases infos with
      | nil =>
        intro chain n auxes rest h
        simp only [fillAuxList, Option.some.injEq, Prod.mk.injEq] at h
        obtain ⟨h1, h2⟩ := h
        subst h2
        exact List.Sublist.refl _
      | cons info irest =>
        intro chain n auxes rest h
        simp [fillAuxList, fillChainF] at h
  | succ fuel ih =>
    obtain ⟨ihP, ihQ⟩ := ih
    have P1 : ∀ chain pos n buf rest, fillChainF (fuel + 1) chain pos n = some (buf, rest) →
        buf.length = n ∧
        ∃ cell chain1, removeCell chain pos = some (cell, chain1) ∧ rest.Sublist chain1 := by
      intro chain pos n buf rest h
      simp only [fillChainF] at h
      cases hrem : removeCell chain pos with
      | none => simp only [hrem] at h; exact Option.noConfusion h
      | some p =>
        obtain ⟨cell, chain1⟩ := p
        simp only [hrem] at h
        cases haux : fillAuxList fuel cell.auxiliaries chain1 n with
        | none => simp only [haux] at h; exact Option.noConfusion h
        | some pa =>
          obtain ⟨aux_list, chain2⟩ := pa
          simp only [haux] at h
          cases hnext : cell.from_module with
          | some next_id =>
            simp only [hnext] at h
            cases hrec : fillChainF fuel chain2 next_id n with
            | none => simp only [hrec] at h; exact Option.noConfusion h
            | some pr =>
              obtain ⟨buffer, chain3⟩ := pr
              simp only [hrec] at h
              cases hfb : cell.module.fill_buffer buffer aux_list with
              | none => simp only [hfb] at h; exact Option.noConfusion h
              | some q =>
                simp only [hfb, Option.some.injEq, Prod.mk.injEq] at h
                obtain ⟨hbuf, hrest⟩ := h
                obtain ⟨hlen, _, c1, hc, hsub⟩ := ihP chain2 next_id n buffer chain3 hrec
                constructor
                · rw [← hbuf, fill_buffer_length _ _ _ _ hfb]
                  exact hlen
                · refine ⟨cell, chain1, rfl, ?_⟩
                  rw [← hrest]
                  exact hsub.trans ((removeCell_sublist chain2 next_id _ _ hc).trans
                    (ihQ cell.auxiliaries chain1 n aux_list chain2 haux))
          | none =>
            simp only [hnext] at h
            cases hfb : cell.module.fill_buffer (List.replicate n 0.0) aux_list with
            | none => simp only [hfb] at h; exact Option.noConfusion h
            | some q =>
              simp only [hfb, Option.some.injEq, Prod.mk.injEq] at h
              obtain ⟨hbuf, hrest⟩ := h
              constructor
              · rw [← hbuf, fill_buffer_length _ _ _ _ hfb]
                simp
              · refine ⟨cell, chain1, rfl, ?_⟩
                rw [← hrest]
                exact ihQ cell.auxiliaries chain1 n aux_list chain2 haux
    have Q1 : ∀ infos chain n auxes rest,
        fillAuxList (fuel + 1) infos chain n = some (auxes, rest) → rest.Sublist chain := by
      intro infos
      induction infos with
      | nil =>
        intro chain n auxes rest h
        simp only [fillAuxList, Option.some.injEq, Prod.mk.injEq] at h
        obtain ⟨h1, h2⟩ := h
        subst h2
        exact List.Sublist.refl _
      | cons info irest iih =>
        intro chain n auxes rest h
        simp only [fillAuxList] at h
        cases hf : fillChainF (fuel + 1) chain info.from_module n with
        | none => simp only [hf] at h; exact Option.noConfusion h
        | some pf =>
          obtain ⟨aux_buffer, chain1⟩ := pf
          simp only [hf] at h
          cases hb : ((AuxInputBuilder.new info.linked_with (.batch aux_buffer)).with_all_yaml
              info.max info.min).build with
          | error e => simp only [hb] at h; exact Option.noConfusion h
          | ok aux =>
            simp only [hb] at h
            cases hrest : fillAuxList (fuel + 1) irest chain1 n with
            | none => simp only [hrest] at h; exact Option.noConfusion h
            | some pq =>
              obtain ⟨auxes2, chain2⟩ := pq
              simp only [hrest, Option.some.injEq, Prod.mk.injEq] at h
              rw [← h.2]
              obtain ⟨_, cell, c1, hc, hsub⟩ := P1 chain info.from_module n aux_buffer chain1 hf
              exact (iih chain1 n auxes2 chain2 hrest).trans
                (hsub.trans (removeCell_sublist chain info.from_module cell c1 hc))
    exact ⟨P1, Q1⟩

/-- A minimal generator module (no parameters, constant output) used in
the concrete chains below. -/
def modCex : Module :=
  { params := some [], behaviour := fun _ps _inp _t => 0.0, name := "osc" }

/-- A two-cell chain whose root reaches cell 1 along two different edges
(one auxiliary routing and the upstream edge): the id-set is `{0, 1}`,
every referenced id exists, and the edge relation `0 → 1` is acyclic. -/
def chainCex : List (Int × ChainCell) :=
  [(0, { from_module := some 1, module := modCex,
         auxiliaries := [{ from_module := 1, linked_with := "amplitude",
                           max := none, min := none }] }),
   (1, { from_module := none, module := modCex, auxiliaries := [] })]

/-- A single-generator chain used by the witnesses. -/
def chainLin : List (Int × ChainCell) :=
  [(0, { from_module := none, module := modCex, auxiliaries := [] })]

/-- C4 counterexample: on `chainCex` every upstream and auxiliary id
reachable from root 0 exists in the map and the edges are acyclic, yet the
recursive batch fill panics — the auxiliary branch consumes cell 1 and the
upstream branch then `unwrap`s a failed `remove` — instead of returning a
vector of the requested length. -/
theorem c4_counterexample_shared_id_panics :
    chainCex.map Prod.fst = [0, 1] ∧
    chainCex.map (fun e => e.2.from_module) = [some 1, none] ∧
    chainCex.map (fun e => e.2.auxiliaries.map AuxInfo.from_module) = [[1], []] ∧
    fillChain chainCex 0 1 = none := by
  refine ⟨rfl, rfl, rfl, ?_⟩
  norm_num [fillChain, chainCex, fillChainF, fillAuxList, removeCell, modCex,
    Module.fill_buffer, Module.fill_buffer_at, reverseAll, fillLoop,
    pop_auxiliaries, popAuxPairs, hashMapOfList, insertPair, lookupPair,
    Module.get_current_parameter_values, Module.update_parameters,
    Module.get_sample, setFirstByTag, Clock.new_at, Clock.inc, Clock.get_value,
    AuxInputBuilder.new, AuxInputBuilder.with_all_yaml, AuxInputBuilder.build,
    AuxiliaryInput.pop, AuxiliaryInput.get_tag, AuxiliaryInput.translate, popBack,
    AuxDataHolder.reverse_buffer, List.replicate]

/-- C4 as amended: whenever the recursive batch fill returns at all (it
panics when a cell id is reached along two different edges), it has
removed each visited cell exactly once — the residual map is a sub-map of
the input and the root is no longer in it — and the returned vector's
length equals the requested buffer size; moreover a generator leaf (no
upstream id) is filled over a freshly allocated zero-filled buffer of the
requested length. -/
theorem fillChain_success_properties :
    (∀ chain root n buf rest, ((chain : List (Int × ChainCell)).map Prod.fst).Nodup →
      fillChain chain root n = some (buf, rest) →
      buf.length = n ∧ rest.Sublist chain ∧ root ∉ rest.map Prod.fst) ∧
    (∀ (fuel : Nat) chain pos n cell chain1 aux_list chain2,
      removeCell chain pos = some (cell, chain1) →
      cell.from_module = none →
      fillAuxList fuel cell.auxiliaries chain1 n = some (aux_list, chain2) →
      fillChainF (fuel + 1) chain pos n =
        (cell.module.fill_buffer (List.replicate n 0.0) aux_list).map
          (fun q => (q.1, chain2))) := by
  constructor
  · intro chain root n buf rest hnd h
    obtain ⟨hlen, cell, chain1, hrem, hsub⟩ := (chain_sound (chain.length + 1)).1
      chain root n buf rest h
    refine ⟨hlen, hsub.trans (removeCell_sublist chain root cell chain1 hrem), ?_⟩
    intro hc
    exact removeCell_keys chain root cell chain1 hrem hnd
      (List.Sublist.mem hc (hsub.map Prod.fst))
  · intro fuel chain pos n cell chain1 aux_list chain2 hrem hnone haux
    simp only [fillChainF, hrem, haux, hnone]
    cases cell.module.fill_buffer (List.replicate n 0.0) aux_list <;> rfl

/-- Witness for C4 (amended): the single-generator chain `chainLin`
evaluates to a zero buffer of length 2 with an empty residual map; both
parts of the theorem applied there. -/
theorem fillChain_success_properties_witness :
    (([(0.0 : F), 0.0]).length = 2 ∧
      (([] : List (Int × ChainCell))).Sublist chainLin ∧
      (0 : Int) ∉ (([] : List (Int × ChainCell))).map Prod.fst) ∧
    fillChainF 1 chainLin 0 2 =
      (Module.fill_buffer modCex (List.replicate 2 0.0) []).map
        (fun q => (q.1, ([] : List (Int × ChainCell)))) :=
  ⟨fillChain_success_properties.1 chainLin 0 2 [0.0, 0.0] [] (by decide)
    (by
      norm_num [fillChain, chainLin, fillChainF, fillAuxList, removeCell, modCex,
        Module.fill_buffer, Module.fill_buffer_at, reverseAll, fillLoop,
        pop_auxiliaries, popAuxPairs, hashMapOfList,
        Module.get_current_parameter_values, Module.update_parameters,
        Module.get_sample, Clock.new_at, Clock.inc, Clock.get_value,
        List.replicate]),
   fillChain_success_properties.2 0 chainLin 0 2
     { from_module := none, module := modCex, auxiliaries := [] } [] [] []
     rfl rfl (by simp [fillAuxList])⟩

/-- C5: the batch executor of the embedding is a pure function of the
chain map, the root id and the requested length — the source uses no
wall clock and no randomness — so two runs from equal initial chains
produce identical output vectors. -/
theorem fillChain_deterministic (c1 c2 : List (Int × ChainCell)) (root : Int) (n : Nat)
    (h : c1 = c2) : fillChain c1 root n = fillChain c2 root n := by
  rw [h]

/-- Witness for C5: two runs over the same one-generator chain. -/
theorem fillChain_deterministic_witness :
    fillChain chainLin 0 2 = fillChain chainLin 0 2 :=
  fillChain_deterministic chainLin chainLin 0 2 rfl

/-! ## Streaming wrappers and coordinator (src/src/module/real_time.rs) -/

/-- `WrapperError` enum from src/src/module/real_time.rs. -/
inductive WrapperError where
  | consumerExhausted (name : String)
  | producerFull (name : String)
  deriving Repr, DecidableEq

/-- A real-time wrapper: a generator wrapper (module, producer handle,
auxiliary inputs) or a linker wrapper (module, consumer handle, producer
handle, auxiliary inputs).  Ring-buffer handles are indices into the
shared ring-buffer heap, so that both ends of a channel see one buffer. -/
inductive WrapperE where
  | generator (module : Module) (producer : Nat) (aux_inputs : List AuxiliaryInput)
  | linker (module : Module) (consumer : Nat) (producer : Nat)
      (aux_inputs : List AuxiliaryInput)

/-- `ModuleWrapper::gen_sample` for both wrappers: a full producer (and,
for a linker, an empty consumer) is reported as an `Err` value — not a
panic; otherwise one sample is produced.  The outer `Option` models the
panics inside (`pop_auxiliaries` unwrapping a missing fallback tag). -/
def WrapperE.gen_sample : WrapperE → List RingBuf → F →
    Option (Except WrapperError (WrapperE × List RingBuf))
  | .generator m prod auxs, store, time =>
    if (storeGet store prod).is_full then some (.error (.producerFull m.get_name))
    else
      match pop_auxiliaries auxs m.get_current_parameter_values store with
      | none => none
      | some (aux_values, auxs', store') =>
        let m' := m.update_parameters aux_values
        let value := m'.get_sample 0.0 time
        some (.ok (.generator m' prod auxs',
          store'.set prod ((storeGet store' prod).push value)))
  | .linker m cons prod auxs, store, time =>
    if (storeGet store cons).is_empty then some (.error (.consumerExhausted m.get_name))
    else if (storeGet store prod).is_full then some (.error (.producerFull m.get_name))
    else
      match (storeGet store cons).pop with
      | none => none
      | some (prev, rb) =>
        let store1 := store.set cons rb
        match pop_auxiliaries auxs m.get_current_parameter_values store1 with
        | none => none
        | some (aux_values, auxs', store2) =>
          let m' := m.update_parameters aux_values
          let value := m'.get_sample prev time
          some (.ok (.linker m' cons prod auxs',
            store2.set prod ((storeGet store2 prod).push value)))

/-- `CoordinatorEntity` struct from src/src/module/real_time.rs. -/
structure CoordinatorEntity where
  clock : Clock
  wrapper_chain : List WrapperE

/-- The wrapper loop of `CoordinatorEntity::tick`:
`gen_sample(time).unwrap()` on every wrapper in order — an `Err` result is
unwrapped, i.e. the tick panics (`none`). -/
def tickChain : List WrapperE → List RingBuf → F →
    Option (List WrapperE × List RingBuf)
  | [], store, _ => some ([], store)
  | w :: ws, store, time =>
    match w.gen_sample store time with
    | some (.ok (w', store')) =>
      (tickChain ws store' time).map (fun q => (w' :: q.1, q.2))
    | some (.error _) => none
    | none => none

/-- `CoordinatorEntity::tick`: run every wrapper at the current clock
time, then advance the clock by one sample. -/
def CoordinatorEntity.tick (c : CoordinatorEntity) (store : List RingBuf) :
    Option (CoordinatorEntity × List RingBuf) :=
  (tickChain c.wrapper_chain store c.clock.get_time).map
    (fun q => ({ clock := (c.clock.inc).2, wrapper_chain := q.1 }, q.2))

/-- C8 counterexample: a coordinator over one generator wrapper whose
producer ring buffer is full — a runtime transient condition — panics in
`tick` (the `unwrap` of the reported `Err`), instead of skipping the
wrapper and continuing. -/
theorem c8_counterexample_tick_panics_on_full_producer :
    (storeGet [{ cap := 1, data := [0.0] }] 0).is_full = true ∧
    CoordinatorEntity.tick
      { clock := Clock.new 44100, wrapper_chain := [.generator modCex 0 []] }
      [{ cap := 1, data := [0.0] }] = none := by
  constructor
  · rfl
  · rfl

/-- C8 as amended: each wrapper's `gen_sample` handles the transient
conditions without panicking — a full producer (and, for a linker, an
empty consumer, checked first) is returned as an `Err` report — but
`CoordinatorEntity::tick` unwraps every wrapper's result, so the tick
panics (halting the stream) as soon as any wrapper reports a transient
condition. -/
theorem gen_sample_reports_tick_unwraps :
    (∀ (m : Module) (prod : Nat) (auxs : List AuxiliaryInput) store time,
      (storeGet store prod).is_full = true →
      WrapperE.gen_sample (.generator m prod auxs) store time =
        some (.error (.producerFull m.get_name))) ∧
    (∀ (m : Module) (cons prod : Nat) (auxs : List AuxiliaryInput) store time,
      (storeGet store cons).is_empty = true →
      WrapperE.gen_sample (.linker m cons prod auxs) store time =
        some (.error (.consumerExhausted m.get_name))) ∧
    (∀ (m : Module) (cons prod : Nat) (auxs : List AuxiliaryInput) store time,
      (storeGet store cons).is_empty = false →
      (storeGet store prod).is_full = true →
      WrapperE.gen_sample (.linker m cons prod auxs) store time =
        some (.error (.producerFull m.get_name))) ∧
    (∀ (clock : Clock) (w : WrapperE) (ws : List WrapperE) store e,
      w.gen_sample store clock.get_time = some (.error e) →
      CoordinatorEntity.tick { clock := clock, wrapper_chain := w :: ws } store = none) := by
  refine ⟨?_, ?_, ?_, ?_⟩
  · intro m prod auxs store time hfull
    simp [WrapperE.gen_sample, hfull]
  · intro m cons prod auxs store time hempty
    simp [WrapperE.gen_sample, hempty]
  · intro m cons prod auxs store time hempty hfull
    simp [WrapperE.gen_sample, hempty, hfull]
  · intro clock w ws store e herr
    unfold CoordinatorEntity.tick
    simp only [tickChain, herr]
    rfl

/-- Witness for C8 (amended): concrete full-producer generator, starved
linker, backpressured linker, and a panicking coordinator tick. -/
theorem gen_sample_reports_tick_unwraps_witness :
    (WrapperE.gen_sample (.generator modCex 0 []) [{ cap := 1, data := [0.0] }] 0.0 =
      some (.error (.producerFull "osc"))) ∧
    (WrapperE.gen_sample (.linker modCex 0 1 []) [{ cap := 1, data := [] },
        { cap := 1, data := [] }] 0.0 =
      some (.error (.consumerExhausted "osc"))) ∧
    (WrapperE.gen_sample (.linker modCex 0 1 []) [{ cap := 1, data := [0.0] },
        { cap := 1, data := [0.0] }] 0.0 =
      some (.error (.producerFull "osc"))) ∧
    (CoordinatorEntity.tick
      { clock := Clock.new 44100, wrapper_chain := [.generator modCex 0 []] }
      [{ cap := 1, data := [0.0] }] = none) :=
  ⟨gen_sample_reports_tick_unwraps.1 modCex 0 [] [{ cap := 1, data := [0.0] }] 0.0 rfl,
   gen_sample_reports_tick_unwraps.2.1 modCex 0 1 []
     [{ cap := 1, data := [] }, { cap := 1, data := [] }] 0.0 rfl,
   gen_sample_reports_tick_unwraps.2.2.1 modCex 0 1 []
     [{ cap := 1, data := [0.0] }, { cap := 1, data := [0.0] }] 0.0 rfl rfl,
   gen_sample_reports_tick_unwraps.2.2.2 (Clock.new 44100) (.generator modCex 0 []) []
     [{ cap := 1, data := [0.0] }] (.producerFull "osc")
     (gen_sample_reports_tick_unwraps.1 modCex 0 [] [{ cap := 1, data := [0.0] }]
       (Clock.new 44100).get_time rfl)⟩

/-! ## Oscillator (src/src/bundled_modules/osc/oscillator.rs) -/

/-- The exact rational value of the `f32` constant `std::f32::consts::PI`
(`0x40490FDB`). -/
def PI32 : F := 13176795 / 4194304

/-- `WaveShape` enum from src/src/bundled_modules/osc/oscillator_math.rs;
its `Default` is `Sine`. -/
inductive WaveShape where
  | saw
  | square
  | pulse (width : F)
  | sine
  | triangle
  deriving Repr, DecidableEq

/-- `Oscillator` struct: it owns four `Parameter`s (amplitude, frequency,
phase, pulse width) plus a wave shape and a debug name. -/
structure Oscillator where
  amplitude : Parameter
  frequency : Parameter
  phase : Parameter
  wave_shape : WaveShape
  pulse_width : Parameter
  name : String
  deriving Repr, DecidableEq

/-- `Oscillator::get_parameters`:
`Some(vec![&self.amplitude, &self.frequency, &self.phase])` — the
`pulse_width` parameter is not in the returned list. -/
def Oscillator.get_parameters (o : Oscillator) : Option (List Parameter) :=
  some [o.amplitude, o.frequency, o.phase]

/-- `Oscillator::get_parameters_mutable`: the same three parameters,
mutably. -/
def Oscillator.get_parameters_mutable (o : Oscillator) : Option (List Parameter) :=
  some [o.amplitude, o.frequency, o.phase]

/-- `OscillatorBuilder` struct. -/
structure OscillatorBuilder where
  frequency : Option F
  amplitude : Option F
  phase : Option F
  wave : Option WaveShape
  pulse_width : Option F
  name : Option String

/-- `OscillatorBuilder::new`. -/
def OscillatorBuilder.new : OscillatorBuilder :=
  { frequency := none, amplitude := none, phase := none, wave := none,
    pulse_width := none, name := none }

/-- `OscillatorBuilder::build`: defaults frequency 440, amplitude 1,
phase 0, sine wave, pulse width π; builds the four parameters through the
validating `ParameterBuilder` (`.expect(..)`, so a failed parameter build
panics — `none`). -/
def OscillatorBuilder.build (b : OscillatorBuilder) : Option Oscillator :=
  let name := match b.name with
    | some n => n ++ " Oscillator"
    | none => "Oscillator"
  let frequency := b.frequency.getD 440.0
  let amplitude := b.amplitude.getD 1.0
  let phase := b.phase.getD 0.0
  let wave := b.wave.getD .sine
  let pulse_width := b.pulse_width.getD PI32
  match ((ParameterBuilder.new "amplitude").with_default amplitude).build with
  | .error _ => none
  | .ok amplitudeP =>
    match ((((ParameterBuilder.new "frequency").with_max 22000.0).with_min
        10.0).with_default frequency).build with
    | .error _ => none
    | .ok frequencyP =>
      match (((ParameterBuilder.new "phase").with_max
          (PI32 * 2.0)).with_default phase).build with
      | .error _ => none
      | .ok phaseP =>
        match ((((ParameterBuilder.new "pulse width").with_max
            (2.0 * PI32)).with_min 0.0).with_default pulse_width).build with
        | .error _ => none
        | .ok pulseP =>
          some { amplitude := amplitudeP, frequency := frequencyP, phase := phaseP,
                 wave_shape := wave, pulse_width := pulseP, name := name }

/-- The oscillator the default builder produces. -/
def oscDefault : Oscillator :=
  { amplitude := { max := 1.0, min := 0.0, step := 0.1, default := 1.0,
                   current := 1.0, tag := "amplitude" },
    frequency := { max := 22000.0, min := 10.0, step := 0.1, default := 440.0,
                   current := 440.0, tag := "frequency" },
    phase := { max := PI32 * 2.0, min := 0.0, step := 0.1, default := 0.0,
               current := 0.0, tag := "phase" },
    wave_shape := .sine,
    pulse_width := { max := 2.0 * PI32, min := 0.0, step := 0.1, default := PI32,
                     current := PI32, tag := "pulse width" },
    name := "Oscillator" }

/-- A parameter produced by `ParameterBuilder::build` carries the
builder's tag. -/
theorem build_ok_tag (b : ParameterBuilder) (p : Parameter) (h : b.build = .ok p) :
    p.get_tag = b.tag := by
  simp only [ParameterBuilder.build] at h
  split at h
  · cases h
  · split at h
    · cases h
    · split at h
      · cases h
      · cases h
        rfl

/-- C9 counterexample: the default-built Oscillator owns a pulse-width
`Parameter` (tag `"pulse width"`), but `get_parameters` returns only
amplitude, frequency and phase — the full parameter set is not exposed. -/
theorem c9_counterexample_pulse_width_not_exposed :
    OscillatorBuilder.new.build = some oscDefault ∧
    oscDefault.pulse_width.get_tag = "pulse width" ∧
    (oscDefault.get_parameters.getD []).map Parameter.get_tag =
      ["amplitude", "frequency", "phase"] ∧
    "pulse width" ∉ (oscDefault.get_parameters.getD []).map Parameter.get_tag := by
  refine ⟨?_, rfl, rfl,
    by simp [oscDefault, Oscillator.get_parameters, Parameter.get_tag]⟩
  norm_num [OscillatorBuilder.new, OscillatorBuilder.build, oscDefault, PI32,
    ParameterBuilder.new, ParameterBuilder.with_max, ParameterBuilder.with_min,
    ParameterBuilder.with_default, ParameterBuilder.build]

/-- C9 as amended: every Oscillator exposes exactly its amplitude,
frequency and phase parameters through `get_parameters` and
`get_parameters_mutable`; the pulse-width parameter it owns (tag
`"pulse width"` on every built oscillator) is not among the exposed
tags. -/
theorem oscillator_exposes_three_of_four_parameters :
    (∀ o : Oscillator, o.get_parameters = some [o.amplitude, o.frequency, o.phase] ∧
      o.get_parameters_mutable = some [o.amplitude, o.frequency, o.phase]) ∧
    (∀ b osc, OscillatorBuilder.build b = some osc →
      (osc.get_parameters.getD []).map Parameter.get_tag =
        ["amplitude", "frequency", "phase"] ∧
      osc.pulse_width.get_tag = "pulse width" ∧
      "pulse width" ∉ (osc.get_parameters.getD []).map Parameter.get_tag) := by
  constructor
  · intro o
    exact ⟨rfl, rfl⟩
  · intro b osc hb
    unfold OscillatorBuilder.build at hb
    cases ha : ((ParameterBuilder.new "amplitude").with_default
        (b.amplitude.getD 1.0)).build with
    | error e => simp only [ha] at hb; exact Option.noConfusion hb
    | ok amplitudeP =>
      simp only [ha] at hb
      cases hf : ((((ParameterBuilder.new "frequency").with_max 22000.0).with_min
          10.0).with_default (b.frequency.getD 440.0)).build with
      | error e => simp only [hf] at hb; exact Option.noConfusion hb
      | ok frequencyP =>
        simp only [hf] at hb
        cases hp : (((ParameterBuilder.new "phase").with_max
            (PI32 * 2.0)).with_default (b.phase.getD 0.0)).build with
        | error e => simp only [hp] at hb; exact Option.noConfusion hb
        | ok phaseP =>
          simp only [hp] at hb
          cases hw : ((((ParameterBuilder.new "pulse width").with_max
              (2.0 * PI32)).with_min 0.0).with_default
              (b.pulse_width.getD PI32)).build with
          | error e => simp only [hw] at hb; exact Option.noConfusion hb
          | ok pulseP =>
            simp only [hw, Option.some.injEq] at hb
            have hta := build_ok_tag _ _ ha
            have htf := build_ok_tag _ _ hf
            have htp := build_ok_tag _ _ hp
            have htw := build_ok_tag _ _ hw
            rw [← hb]
            refine ⟨?_, ?_, ?_⟩
            · simp [Oscillator.get_parameters, hta, htf, htp,
                ParameterBuilder.new, ParameterBuilder.with_max,
                ParameterBuilder.with_min, ParameterBuilder.with_default]
            · simpa [ParameterBuilder.new, ParameterBuilder.with_max,
                ParameterBuilder.with_min, ParameterBuilder.with_default] using htw
            · simp [Oscillator.get_parameters, hta, htf, htp,
                ParameterBuilder.new, ParameterBuilder.with_max,
                ParameterBuilder.with_min, ParameterBuilder.with_default]

/-- Witness for C9 (amended): the theorem applied to the default-built
oscillator. -/
theorem oscillator_exposes_three_of_four_parameters_witness :
    (oscDefault.get_parameters =
      some [oscDefault.amplitude, oscDefault.frequency, oscDefault.phase]) ∧
    ((oscDefault.get_parameters.getD []).map Parameter.get_tag =
        ["amplitude", "frequency", "phase"] ∧
      oscDefault.pulse_width.get_tag = "pulse width" ∧
      "pulse width" ∉ (oscDefault.get_parameters.getD []).map Parameter.get_tag) :=
  ⟨(oscillator_exposes_three_of_four_parameters.1 oscDefault).1,
   oscillator_exposes_three_of_four_parameters.2 OscillatorBuilder.new oscDefault
     (by
       norm_num [OscillatorBuilder.new, OscillatorBuilder.build, oscDefault, PI32,
         ParameterBuilder.new, ParameterBuilder.with_max, ParameterBuilder.with_min,
         ParameterBuilder.with_default, ParameterBuilder.build])⟩

end LionSynth
